import Mathlib

/-!
Verification development for the proof-gathering engine of
`crates/engine/tree/src/tree/proofs.rs`.

The engine consumes a stream of `StateAccess` events, aggregates them into
deduplicated target batches (hashed address -> set of hashed slots), drives
multiproof computations over those batches, and merges the partial
multiproofs into one accumulated result delivered on a oneshot channel.

Embedding conventions:
* raw addresses / slots / hashes (`Address`, `B256`) are `Nat`;
* `keccak256` (an opaque deterministic hash from `reth_primitives`, outside
  the excerpt) is passed as an explicit function parameter `keccak`;
* `HashMap<B256, HashSet<B256>>` is an association list with unique keys,
  `List (Nat × Finset Nat)`; its extensional content is given by `tbLookup`;
* panics (`unwrap` / `expect`) are modelled by `none` / dedicated
  `panicked` constructors; fallible collaborators return `Option`.
-/

/-- Modelled from the spec: `StateAccess` (defined in the sibling module
`streaming_database`, not part of the excerpt) — tagged union with two
variants, `Account(address)` and `StorageSlot(address, slot)`. -/
inductive StateAccess
  | Account (address : Nat)
  | StorageSlot (address : Nat) (slot : Nat)
  deriving DecidableEq, Repr

/-- The `targets` map `HashMap<B256, HashSet<B256>>`: hashed address to set of
hashed storage slots.  Keys are unique; list order is the (irrelevant)
insertion order of the hash map. -/
abbrev TargetBatch := List (Nat × Finset Nat)

/-- Lookup of a key in a target batch (the extensional content of the map). -/
def tbLookup : TargetBatch → Nat → Option (Finset Nat)
  | [], _ => none
  | (k, v) :: rest, key => if k = key then some v else tbLookup rest key

/-- `targets.entry(key).or_default()` used for `StateAccess::Account`
(lines 39 and 105): ensure `key` is present, mapping it to the empty slot set
when it was absent, leaving the map untouched when it was present. -/
def tbEnsure : TargetBatch → Nat → TargetBatch
  | [], key => [(key, ∅)]
  | (k, v) :: rest, key =>
      if k = key then (k, v) :: rest else (k, v) :: tbEnsure rest key

/-- `targets.entry(key).or_default().insert(slot)` used for
`StateAccess::StorageSlot` (lines 42 and 108): ensure `key` is present and
insert `slot` into its slot set. -/
def tbInsertSlot : TargetBatch → Nat → Nat → TargetBatch
  | [], key, slot => [(key, {slot})]
  | (k, v) :: rest, key, slot =>
      if k = key then (k, insert slot v) :: rest
      else (k, v) :: tbInsertSlot rest key slot

/-- One step of the target aggregator (the match arms at lines 37-44 and
102-110): fold a single `StateAccess` event into the current batch. -/
def applyAccess (keccak : Nat → Nat) (t : TargetBatch) : StateAccess → TargetBatch
  | .Account address => tbEnsure t (keccak address)
  | .StorageSlot address slot => tbInsertSlot t (keccak address) (keccak slot)

/-- The batch drained from a list of immediately available events, starting
from the empty map (lines 100-117 of `GatherProofsParallel::poll`). -/
def targetsOf (keccak : Nat → Nat) (events : List StateAccess) : TargetBatch :=
  events.foldl (applyAccess keccak) []

/-- The seed batch `HashMap::from([...])` built from the first awaited event
of a sequential iteration (lines 29-34 and 159-164). -/
def seedTargets (keccak : Nat → Nat) : StateAccess → TargetBatch
  | .Account address => [(keccak address, ∅)]
  | .StorageSlot address slot => [(keccak address, {keccak slot})]

/-- The full batch of one sequential-gatherer iteration: the seed from the
first awaited event, extended by the non-blocking drain of the remaining
events (lines 28-45 and 158-175). -/
def groupTargets (keccak : Nat → Nat) (g : StateAccess × List StateAccess) :
    TargetBatch :=
  g.2.foldl (applyAccess keccak) (seedTargets keccak g.1)

/-- Modelled from the spec: `MultiProof` (from `reth_trie`, outside the
excerpt) — an opaque accumulator of proof fragments keyed by hashed account;
a fragment records the hashed storage slots it covers. -/
abbrev MultiProof := Nat → Option (Finset Nat)

/-- `MultiProof::default()`: the empty multiproof. -/
def MultiProof.empty : MultiProof := fun _ => none

/-- Modelled from the spec: `MultiProof::extend` (from `reth_trie`, outside
the excerpt) — merge two multiproofs, unioning the fragments of accounts
present in both.  Used at lines 48, 136 and 179. -/
def MultiProof.extend (m₁ m₂ : MultiProof) : MultiProof := fun k =>
  match m₁ k, m₂ k with
  | none, r => r
  | some a, none => some a
  | some a, some b => some (a ∪ b)

/-- Modelled from the spec: the multiproof operation of the Proof Backend
(`provider.multiproof` / `AsyncProof::multiproof`, outside the excerpt)
behaving as specified — the produced fragments cover exactly the batch's
targets, one fragment per hashed account. -/
def computeMultiproof (t : TargetBatch) : MultiProof := fun k => tbLookup t k

section TargetAggregatorLemmas

variable (keccak : Nat → Nat)

theorem tbLookup_tbEnsure (t : TargetBatch) (key k : Nat) :
    tbLookup (tbEnsure t key) k =
      if k = key then some ((tbLookup t key).getD ∅) else tbLookup t k := by
  induction t with
  | nil =>
      by_cases h : k = key
      · simp [tbEnsure, tbLookup, h]
      · simp [tbEnsure, tbLookup, h, Ne.symm h]
  | cons hd rest ih =>
      obtain ⟨k', v⟩ := hd
      by_cases hk : k' = key
      · subst hk
        by_cases h : k = k'
        · simp [tbEnsure, tbLookup, h]
        · simp [tbEnsure, tbLookup, h, Ne.symm h]
      · by_cases h : k' = k
        · subst h
          simp [tbEnsure, hk, tbLookup, Ne.symm hk]
        · simp [tbEnsure, hk, tbLookup, h, ih]

theorem tbLookup_tbInsertSlot (t : TargetBatch) (key slot k : Nat) :
    tbLookup (tbInsertSlot t key slot) k =
      if k = key then some (insert slot ((tbLookup t key).getD ∅))
      else tbLookup t k := by
  induction t with
  | nil =>
      by_cases h : k = key
      · simp [tbInsertSlot, tbLookup, h]
      · simp [tbInsertSlot, tbLookup, h, Ne.symm h]
  | cons hd rest ih =>
      obtain ⟨k', v⟩ := hd
      by_cases hk : k' = key
      · subst hk
        by_cases h : k = k'
        · simp [tbInsertSlot, tbLookup, h]
        · simp [tbInsertSlot, tbLookup, h, Ne.symm h]
      · by_cases h : k' = k
        · subst h
          simp [tbInsertSlot, hk, tbLookup, Ne.symm hk]
        · simp [tbInsertSlot, hk, tbLookup, h, ih]

theorem tbEnsure_present (t : TargetBatch) (key : Nat) (v : Finset Nat)
    (h : tbLookup t key = some v) : tbEnsure t key = t := by
  induction t with
  | nil => simp [tbLookup] at h
  | cons hd rest ih =>
      obtain ⟨k', v'⟩ := hd
      by_cases hk : k' = key
      · simp [tbEnsure, hk]
      · simp [tbLookup, hk] at h
        simp [tbEnsure, hk, ih h]

end TargetAggregatorLemmas

section MultiProofLemmas

theorem MultiProof.extend_empty_right (m : MultiProof) :
    m.extend MultiProof.empty = m := by
  funext k
  cases h : m k <;> simp [MultiProof.extend, MultiProof.empty, h]

theorem MultiProof.extend_empty_left (m : MultiProof) :
    MultiProof.empty.extend m = m := by
  funext k
  cases h : m k <;> simp [MultiProof.extend, MultiProof.empty, h]

theorem MultiProof.extend_assoc (m₁ m₂ m₃ : MultiProof) :
    (m₁.extend m₂).extend m₃ = m₁.extend (m₂.extend m₃) := by
  funext k
  cases h₁ : m₁ k <;> cases h₂ : m₂ k <;> cases h₃ : m₃ k <;>
    simp [MultiProof.extend, h₁, h₂, h₃, Finset.union_assoc]

theorem MultiProof.extend_comm (m₁ m₂ : MultiProof) :
    m₁.extend m₂ = m₂.extend m₁ := by
  funext k
  cases h₁ : m₁ k <;> cases h₂ : m₂ k <;>
    simp [MultiProof.extend, h₁, h₂, Finset.union_comm]

theorem computeMultiproof_nil : computeMultiproof [] = MultiProof.empty := by
  funext k
  simp [computeMultiproof, tbLookup, MultiProof.empty]

/-- Aggregating one event into a batch corresponds, on the multiproof side,
to merging in the fragment of the event taken alone. -/
theorem computeMultiproof_applyAccess (keccak : Nat → Nat) (t : TargetBatch)
    (e : StateAccess) :
    computeMultiproof (applyAccess keccak t e) =
      (computeMultiproof t).extend (computeMultiproof (applyAccess keccak [] e)) := by
  funext k
  cases e with
  | Account address =>
      by_cases hk : k = keccak address
      · cases h : tbLookup t (keccak address) <;>
          simp [computeMultiproof, applyAccess, tbLookup_tbEnsure, tbEnsure,
            MultiProof.extend, h, tbLookup, hk]
      · cases h : tbLookup t k <;>
          simp [computeMultiproof, applyAccess, tbLookup_tbEnsure, tbEnsure,
            MultiProof.extend, h, tbLookup, hk, Ne.symm hk]
  | StorageSlot address slot =>
      by_cases hk : k = keccak address
      · cases h : tbLookup t (keccak address) <;>
          simp [computeMultiproof, applyAccess, tbLookup_tbInsertSlot, tbInsertSlot,
            MultiProof.extend, h, tbLookup, hk, Finset.insert_eq, Finset.union_comm]
      · cases h : tbLookup t k <;>
          simp [computeMultiproof, applyAccess, tbLookup_tbInsertSlot, tbInsertSlot,
            MultiProof.extend, h, tbLookup, hk, Ne.symm hk]

/-- Aggregating a list of events into an existing batch corresponds, on the
multiproof side, to merging in the multiproof of those events taken alone. -/
theorem computeMultiproof_foldl (keccak : Nat → Nat) (events : List StateAccess) :
    ∀ t : TargetBatch,
      computeMultiproof (events.foldl (applyAccess keccak) t) =
        (computeMultiproof t).extend (computeMultiproof (targetsOf keccak events)) := by
  induction events with
  | nil =>
      intro t
      simp [targetsOf, computeMultiproof_nil, MultiProof.extend_empty_right]
  | cons e es ih =>
      intro t
      have h1 : computeMultiproof ((e :: es).foldl (applyAccess keccak) t) =
          (computeMultiproof (applyAccess keccak t e)).extend
            (computeMultiproof (targetsOf keccak es)) := by
        rw [List.foldl_cons]
        exact ih (applyAccess keccak t e)
      have h2 : computeMultiproof (targetsOf keccak (e :: es)) =
          (computeMultiproof (applyAccess keccak [] e)).extend
            (computeMultiproof (targetsOf keccak es)) := by
        show computeMultiproof (es.foldl (applyAccess keccak) (applyAccess keccak [] e)) = _
        exact ih (applyAccess keccak [] e)
      rw [h1, computeMultiproof_applyAccess, MultiProof.extend_assoc, ← h2]

end MultiProofLemmas

/-!
Sequential gatherers.  `gather_proofs` (lines 21-52, direct strategy) and
`gather_proofs_parallel` (lines 145-183, offloaded strategy) run the same
loop: await one event, seed a batch from it, non-blockingly drain every
further available event into the batch, hand the batch to the Proof Backend,
merge the result, repeat until the stream closes, then send the
`SessionResult`.  The environment is deterministically encoded as:

* `groups : List (StateAccess × List StateAccess)` — how the event stream
  interleaves with the loop: each element is the first awaited event of one
  iteration paired with the events the `try_recv` drain then finds;
* `backend : TargetBatch → Option MultiProof` — the Proof Backend
  (`provider.multiproof` resp. `async_proof_calculator.multiproof`); `none`
  is a backend failure, which the code `unwrap`s (lines 48 and 178);
* `callerAlive : Bool` — whether the receiving half of the oneshot result
  channel still exists at the final `tx.send` (lines 51 and 182);
* `elapsed : Nat` — the non-negative wall-clock duration
  `started_at.elapsed()` observed at the send.
-/

/-- Observable actions of a sequential gathering session, in order:
a batch handed to the Proof Backend, a backend result merged into the
accumulator, the final `SessionResult` sent. -/
inductive SeqEvent
  | dispatch (t : TargetBatch)
  | merged
  | send
  deriving DecidableEq

/-- Whether a session action is a dispatch to the Proof Backend. -/
def SeqEvent.isDispatch : SeqEvent → Bool
  | .dispatch _ => true
  | _ => false

/-- Whether a session action is a merge of a backend result. -/
def SeqEvent.isMerged : SeqEvent → Bool
  | .merged => true
  | _ => false

/-- The `while let Some(next) = state_rx.recv().await` loop shared verbatim
by both sequential strategies (lines 28-49 and 158-180): per group, build the
batch, call the backend, merge its result into the accumulator.  Returns the
final accumulator (`none` when a backend failure made the `unwrap` panic)
together with the ordered trace of observable actions. -/
def sequential_loop (keccak : Nat → Nat) (backend : TargetBatch → Option MultiProof) :
    List (StateAccess × List StateAccess) → MultiProof →
      Option MultiProof × List SeqEvent
  | [], acc => (some acc, [])
  | g :: groups, acc =>
      let targets := groupTargets keccak g
      match backend targets with
      | none => (none, [.dispatch targets])
      | some result =>
          let rest := sequential_loop keccak backend groups (acc.extend result)
          (rest.1, .dispatch targets :: .merged :: rest.2)

/-- The tuple sent on the oneshot channel at session completion
(lines 51 and 182): returned provider ownership, merged multiproof, elapsed
wall-clock duration. -/
structure SessionResult (P : Type) where
  provider : P
  multiproof : MultiProof
  elapsed : Nat

/-- How a gathering session ended: normal return, or a process-aborting
panic (an `unwrap` / `expect` on a failure). -/
inductive Termination
  | normal
  | panicked
  deriving DecidableEq, Repr

/-- Everything observable about one finished sequential session: what (if
anything) the caller received on the result channel, how the session ended,
and the ordered action trace. -/
structure RunOutcome (P : Type) where
  delivered : Option (SessionResult P)
  termination : Termination
  trace : List SeqEvent

/-- Outcome shared by both sequential strategies: run the loop; a backend
failure panics with nothing delivered; otherwise the `SessionResult` is sent,
and `let _ = tx.send(..)` discards the send error when the caller has dropped
the receiver (lines 51 and 182). -/
def sessionOutcome {P : Type} (keccak : Nat → Nat)
    (backend : TargetBatch → Option MultiProof) (provider : P)
    (groups : List (StateAccess × List StateAccess)) (elapsed : Nat)
    (callerAlive : Bool) : RunOutcome P :=
  match sequential_loop keccak backend groups MultiProof.empty with
  | (none, tr) => ⟨none, .panicked, tr⟩
  | (some m, tr) =>
      ⟨if callerAlive then some ⟨provider, m, elapsed⟩ else none, .normal,
        tr ++ [.send]⟩

/-- Model of `gather_proofs` (lines 21-52): the direct sequential strategy,
invoking the backend synchronously on the provider. -/
def gather_proofs {P : Type} (keccak : Nat → Nat)
    (backend : TargetBatch → Option MultiProof) (provider : P)
    (groups : List (StateAccess × List StateAccess)) (elapsed : Nat)
    (callerAlive : Bool) : RunOutcome P :=
  sessionOutcome keccak backend provider groups elapsed callerAlive

/-- Modelled from the spec: `BlockingTaskPool` (from `reth_tasks`, outside
the excerpt) — a handle to the bounded blocking worker pool; building it may
fail, so `BlockingTaskPool::build` yields an `Option`. -/
structure BlockingTaskPool where
  deriving DecidableEq, Repr

/-- Result of a construction that the code `unwrap`s: either the constructed
value, or a process-aborting panic. -/
inductive Constructed (A : Type)
  | ok (a : A)
  | panicked

/-- Model of `gather_proofs_parallel` (lines 145-183): the offloaded
sequential strategy.  It first builds a `BlockingTaskPool` and `unwrap`s the
result (line 155), then runs the same loop as `gather_proofs`, awaiting each
offloaded backend call. -/
def gather_proofs_parallel {P : Type} (keccak : Nat → Nat)
    (buildResult : Option BlockingTaskPool)
    (backend : TargetBatch → Option MultiProof) (provider : P)
    (groups : List (StateAccess × List StateAccess)) (elapsed : Nat)
    (callerAlive : Bool) : Constructed (RunOutcome P) :=
  match buildResult with
  | none => .panicked
  | some _pool =>
      .ok (sessionOutcome keccak backend provider groups elapsed callerAlive)

/-!
Parallel fan-out engine.  `GatherProofsParallel` (lines 54-143) is a
hand-rolled `Future`.  One activation of `poll` is modelled as a function of
the deterministic environment of that activation:

* `avail : List StateAccess` — the events the stream yields (in order)
  before reporting `Pending` or closure during this activation's drain;
* `closeReady : Bool` — whether after `avail` the stream reports closure
  (`poll_recv` returns `Ready(None)`);
* the engine state: the cloneable `ConsistentDbView` (type `V`), the shared
  `Arc<TrieInputSorted>` overlay (type `I`), `closed`, the unordered
  `pending` collection (each element `some r` when its oneshot has resolved
  to `r`, `none` while the spawned unit of work is still running), and the
  accumulated `multiproof`.

Spawned units of work never resolve within the activation that spawns them,
and `FuturesUnordered::poll_next` on a non-empty set with no completed
element returns `Pending`, on an empty set `Ready(None)`.
-/

/-- The engine state of `GatherProofsParallel<Factory>` (lines 54-65);
`task_spawner`, `blocking_task_pool` and the raw stream handle live in the
environment of `poll`. -/
structure GatherProofsParallel (V I : Type) where
  view : V
  input : I
  closed : Bool
  pending : List (Option MultiProof)
  multiproof : MultiProof

/-- `GatherProofsParallel::new` (lines 68-84): `unwrap`s the result of
`BlockingTaskPool::build()` (line 79), so a pool-construction failure panics
instead of returning an error; otherwise the engine starts not closed, with
no pending work and the default multiproof. -/
def GatherProofsParallel.new {V I : Type} (view : V) (input : I)
    (buildResult : Option BlockingTaskPool) :
    Constructed (GatherProofsParallel V I) :=
  match buildResult with
  | none => .panicked
  | some _pool => .ok ⟨view, input, false, [], MultiProof.empty⟩

/-- What `poll` returns: `Poll::Ready(multiproof)` or `Poll::Pending`. -/
inductive PollResult
  | ready (m : MultiProof)
  | pending

/-- Whether a poll result is `Poll::Ready(..)`. -/
def PollResult.isReady : PollResult → Bool
  | .ready _ => true
  | .pending => false

/-- One unit of work handed to the task spawner (lines 120-131): the cloned
`ConsistentDbView`, the shared overlay reference, and the drained batch. -/
structure DispatchRecord (V I : Type) where
  view : V
  input : I
  targets : TargetBatch

/-- The dispatch step (lines 118-132): when the drained batch is non-empty,
clone the view, share the overlay, spawn the work, and push the fresh
oneshot receiver (not yet resolved, hence `none`) onto `pending`; when the
batch is empty, spawn nothing and leave `pending` untouched. -/
def dispatchStep {V I : Type} (view : V) (input : I) (targets : TargetBatch)
    (pending : List (Option MultiProof)) :
    List (Option MultiProof) × List (DispatchRecord V I) :=
  if targets.isEmpty then (pending, [])
  else (pending ++ [none], [⟨view, input, targets⟩])

/-- `FuturesUnordered::poll_next` on `pending` (line 134): yield one resolved
element (here the first) and the collection without it, or nothing when no
element has resolved. -/
def findCompleted : List (Option MultiProof) →
    Option (MultiProof × List (Option MultiProof))
  | [] => none
  | none :: rest =>
      match findCompleted rest with
      | some (r, rest') => some (r, none :: rest')
      | none => none
  | some r :: rest => some (r, rest)

/-- Number of already-resolved elements of the pending collection. -/
def countCompleted (pending : List (Option MultiProof)) : Nat :=
  pending.countP Option.isSome

/-- The second and later iterations of the `loop` in `poll` (lines 95-141):
`avail` has been consumed and the drain and dispatch steps are no-ops, so
each iteration either hits the terminal check (line 96), harvests one more
resolved result (lines 134-138), or returns `Pending` (line 140).  `fuel`
dominates the number of resolved results still harvestable. -/
def pollLoop {V I : Type} : Nat → GatherProofsParallel V I →
    PollResult × GatherProofsParallel V I
  | 0, st => (.pending, st)
  | fuel + 1, st =>
      if st.closed && st.pending.isEmpty then
        (.ready st.multiproof, { st with multiproof := MultiProof.empty })
      else
        match findCompleted st.pending with
        | some (r, rest) =>
            pollLoop fuel
              { st with pending := rest, multiproof := st.multiproof.extend r }
        | none => (.pending, st)

/-- One activation of `GatherProofsParallel::poll` (lines 93-142): terminal
check, non-blocking drain of `avail` (observing closure when `closeReady`),
dispatch of the drained batch if non-empty, then the harvest loop.  Returns
the poll result, the successor state, and the units of work handed to the
task spawner during this activation. -/
def GatherProofsParallel.poll {V I : Type} (keccak : Nat → Nat)
    (avail : List StateAccess) (closeReady : Bool)
    (st : GatherProofsParallel V I) :
    PollResult × GatherProofsParallel V I × List (DispatchRecord V I) :=
  if st.closed && st.pending.isEmpty then
    (.ready st.multiproof, { st with multiproof := MultiProof.empty }, [])
  else
    let targets := targetsOf keccak avail
    let dispatched := dispatchStep st.view st.input targets st.pending
    let st' : GatherProofsParallel V I :=
      { st with closed := st.closed || closeReady, pending := dispatched.1 }
    match findCompleted st'.pending with
    | some (r, rest) =>
        let looped := pollLoop (countCompleted rest + 1)
          { st' with pending := rest, multiproof := st'.multiproof.extend r }
        (looped.1, looped.2, dispatched.2)
    | none => (.pending, st', dispatched.2)

/-- The spawned unit of work (lines 124-130): computes the multiproof for its
batch and `unwrap`s the outcome — on a backend failure the task panics and
the oneshot sender is dropped without ever sending, so the receiver resolves
to nothing. -/
def spawnedTaskSend (backend : TargetBatch → Option MultiProof)
    (targets : TargetBatch) : Option MultiProof :=
  backend targets

/-- The harvest of one resolved unit of work (line 136):
`result.expect("no error")` — receiving an error (nothing was ever sent)
panics the session (`none`); otherwise the result is merged into the
accumulator. -/
def harvestMerge (acc : MultiProof) (received : Option MultiProof) :
    Option MultiProof :=
  match received with
  | some r => some (acc.extend r)
  | none => none

section BatchNonemptyLemmas

theorem tbEnsure_ne_nil (t : TargetBatch) (key : Nat) : tbEnsure t key ≠ [] := by
  cases t with
  | nil => simp [tbEnsure]
  | cons hd rest =>
      obtain ⟨k, v⟩ := hd
      unfold tbEnsure
      split <;> simp

theorem tbInsertSlot_ne_nil (t : TargetBatch) (key slot : Nat) :
    tbInsertSlot t key slot ≠ [] := by
  cases t with
  | nil => simp [tbInsertSlot]
  | cons hd rest =>
      obtain ⟨k, v⟩ := hd
      unfold tbInsertSlot
      split <;> simp

theorem applyAccess_ne_nil (keccak : Nat → Nat) (t : TargetBatch)
    (e : StateAccess) : applyAccess keccak t e ≠ [] := by
  cases e with
  | Account address => exact tbEnsure_ne_nil t (keccak address)
  | StorageSlot address slot => exact tbInsertSlot_ne_nil t (keccak address) (keccak slot)

theorem foldl_applyAccess_ne_nil (keccak : Nat → Nat)
    (events : List StateAccess) :
    ∀ t : TargetBatch, t ≠ [] → events.foldl (applyAccess keccak) t ≠ [] := by
  induction events with
  | nil => intro t ht; simpa using ht
  | cons e es ih =>
      intro t _
      rw [List.foldl_cons]
      exact ih _ (applyAccess_ne_nil keccak t e)

theorem seedTargets_ne_nil (keccak : Nat → Nat) (e : StateAccess) :
    seedTargets keccak e ≠ [] := by
  cases e <;> simp [seedTargets]

theorem groupTargets_ne_nil (keccak : Nat → Nat)
    (g : StateAccess × List StateAccess) : groupTargets keccak g ≠ [] :=
  foldl_applyAccess_ne_nil keccak g.2 _ (seedTargets_ne_nil keccak g.1)

theorem isEmpty_false_of_ne_nil {α : Type} {l : List α} (h : l ≠ []) :
    l.isEmpty = false := by
  cases l with
  | nil => exact absurd rfl h
  | cons a l => rfl

end BatchNonemptyLemmas

theorem tbInsertSlot_idem (t : TargetBatch) (key slot : Nat) :
    tbInsertSlot (tbInsertSlot t key slot) key slot = tbInsertSlot t key slot := by
  induction t with
  | nil => simp [tbInsertSlot, Finset.insert_eq_self]
  | cons hd rest ih =>
      obtain ⟨k, v⟩ := hd
      by_cases hk : k = key
      · simp [tbInsertSlot, hk]
      · simp [tbInsertSlot, hk, ih]

/-- C3: Target aggregation contract: on the current batch,
`Account(a)` inserts `hash(a)` with an empty slot set when absent and is a
no-op when present; `StorageSlot(a, s)` inserts `hash(a)` if absent and then
inserts `hash(s)` into its slot set, idempotently; other keys are untouched;
and `StorageSlot(A, S)` twice followed by `Account(A)` on an empty batch
yields exactly the one entry `hash(A) ↦ {hash(S)}`. -/
theorem target_aggregation_contract (keccak : Nat → Nat) (a s : Nat)
    (t : TargetBatch) :
    (tbLookup t (keccak a) = none →
      tbLookup (applyAccess keccak t (.Account a)) (keccak a) = some ∅)
    ∧ (∀ v, tbLookup t (keccak a) = some v →
        applyAccess keccak t (.Account a) = t)
    ∧ (tbLookup (applyAccess keccak t (.StorageSlot a s)) (keccak a)
        = some (insert (keccak s) ((tbLookup t (keccak a)).getD ∅)))
    ∧ (∀ k, k ≠ keccak a →
        tbLookup (applyAccess keccak t (.Account a)) k = tbLookup t k
        ∧ tbLookup (applyAccess keccak t (.StorageSlot a s)) k = tbLookup t k)
    ∧ (applyAccess keccak (applyAccess keccak t (.StorageSlot a s))
          (.StorageSlot a s)
        = applyAccess keccak t (.StorageSlot a s))
    ∧ targetsOf keccak [.StorageSlot a s, .StorageSlot a s, .Account a]
        = [(keccak a, {keccak s})] := by
  refine ⟨?_, ?_, ?_, ?_, ?_, ?_⟩
  · intro h
    simp [applyAccess, tbLookup_tbEnsure, h]
  · intro v hv
    simpa [applyAccess] using tbEnsure_present t (keccak a) v hv
  · simp [applyAccess, tbLookup_tbInsertSlot]
  · intro k hk
    constructor
    · simp [applyAccess, tbLookup_tbEnsure, hk]
    · simp [applyAccess, tbLookup_tbInsertSlot, hk]
  · simpa [applyAccess] using tbInsertSlot_idem t (keccak a) (keccak s)
  · simp [targetsOf, applyAccess, tbInsertSlot, tbEnsure, Finset.insert_eq_self]

theorem target_aggregation_contract_witness :
    tbLookup (applyAccess (fun n => n) [] (.Account 5)) 5 = some ∅
    ∧ applyAccess (fun n => n) [(7, ({9} : Finset Nat))] (.Account 7)
        = [(7, ({9} : Finset Nat))] :=
  ⟨(target_aggregation_contract (fun n => n) 5 0 []).1 rfl,
    (target_aggregation_contract (fun n => n) 7 0 [(7, {9})]).2.1 {9}
      (by simp [tbLookup])⟩

/-- C9: in both sequential gatherers every batch handed to the Proof Backend
is non-empty: the batch is seeded from the first awaited event before the
non-blocking drain runs, so every `dispatch` in a sequential session's trace
carries a non-empty targets map. -/
theorem sequential_batches_nonempty (keccak : Nat → Nat)
    (backend : TargetBatch → Option MultiProof)
    (groups : List (StateAccess × List StateAccess)) (acc : MultiProof)
    (g : StateAccess × List StateAccess) :
    (groupTargets keccak g).isEmpty = false
    ∧ (∀ t, SeqEvent.dispatch t ∈ (sequential_loop keccak backend groups acc).2 →
        t.isEmpty = false) := by
  constructor
  · exact isEmpty_false_of_ne_nil (groupTargets_ne_nil keccak g)
  · induction groups generalizing acc with
    | nil =>
        intro t ht
        simp [sequential_loop] at ht
    | cons g' gs ih =>
        intro t ht
        rcases hb : backend (groupTargets keccak g') with _ | r
        · simp [sequential_loop, hb] at ht
          subst ht
          exact isEmpty_false_of_ne_nil (groupTargets_ne_nil keccak g')
        · simp [sequential_loop, hb] at ht
          rcases ht with ht | ht
          · subst ht
            exact isEmpty_false_of_ne_nil (groupTargets_ne_nil keccak g')
          · exact ih _ t ht

theorem sequential_batches_nonempty_witness :
    (groupTargets (fun n => n) (.Account 1, []) ).isEmpty = false
    ∧ ([(1, (∅ : Finset Nat))] : TargetBatch).isEmpty = false :=
  ⟨(sequential_batches_nonempty (fun n => n) (fun _ => some MultiProof.empty)
      [] MultiProof.empty (.Account 1, [])).1,
    (sequential_batches_nonempty (fun n => n) (fun _ => some MultiProof.empty)
      [(.Account 1, [])] MultiProof.empty (.Account 1, [])).2
      [(1, ∅)] (by simp [sequential_loop, groupTargets, seedTargets])⟩

/-- C7: a stream that closes with zero events delivered yields a
`SessionResult` carrying the default multiproof and a non-negative elapsed
duration, in both sequential strategies, and the Proof Backend is never
invoked (the trace contains no dispatch). -/
theorem empty_stream_session (keccak : Nat → Nat)
    (backend : TargetBatch → Option MultiProof) (P : Type) (provider : P)
    (elapsed : Nat) :
    gather_proofs keccak backend provider [] elapsed true
      = ⟨some ⟨provider, MultiProof.empty, elapsed⟩, .normal, [.send]⟩
    ∧ gather_proofs_parallel keccak (some ⟨⟩) backend provider [] elapsed true
      = .ok ⟨some ⟨provider, MultiProof.empty, elapsed⟩, .normal, [.send]⟩
    ∧ 0 ≤ elapsed
    ∧ (gather_proofs keccak backend provider [] elapsed
        true).trace.countP SeqEvent.isDispatch = 0 :=
  ⟨rfl, rfl, Nat.zero_le _, rfl⟩

theorem sequential_loop_fst_none (keccak : Nat → Nat)
    (backend : TargetBatch → Option MultiProof)
    (groups : List (StateAccess × List StateAccess)) (acc : MultiProof)
    (h : ∃ g ∈ groups, backend (groupTargets keccak g) = none) :
    (sequential_loop keccak backend groups acc).1 = none := by
  induction groups generalizing acc with
  | nil => simp at h
  | cons g' gs ih =>
      rcases hb : backend (groupTargets keccak g') with _ | r
      · simp [sequential_loop, hb]
      · rcases h with ⟨g, hg, hgnone⟩
        rcases List.mem_cons.mp hg with rfl | hgs
        · rw [hb] at hgnone
          exact absurd hgnone (by simp)
        · simp only [sequential_loop, hb]
          exact ih _ ⟨g, hgs, hgnone⟩

/-- C4: a Proof Backend failure for any dispatched batch aborts the whole
gathering session as a panic: nothing is delivered on the result channel and
the session terminates as `panicked`, in the direct strategy, the offloaded
strategy, and — via the spawned task's `unwrap` at line 128 feeding the
`expect` at line 136 — the parallel fan-out engine. -/
theorem backend_failure_aborts_session (keccak : Nat → Nat)
    (backend : TargetBatch → Option MultiProof) (P : Type) (provider : P)
    (groups : List (StateAccess × List StateAccess)) (elapsed : Nat)
    (callerAlive : Bool)
    (h : ∃ g ∈ groups, backend (groupTargets keccak g) = none) :
    (gather_proofs keccak backend provider groups elapsed
        callerAlive).termination = .panicked
    ∧ (gather_proofs keccak backend provider groups elapsed
        callerAlive).delivered = none
    ∧ (∀ pool, gather_proofs_parallel keccak (some pool) backend provider
        groups elapsed callerAlive
        = .ok (gather_proofs keccak backend provider groups elapsed callerAlive))
    ∧ (∀ targets acc, backend targets = none →
        harvestMerge acc (spawnedTaskSend backend targets) = none) := by
  have hn := sequential_loop_fst_none keccak backend groups MultiProof.empty h
  have key : gather_proofs keccak backend provider groups elapsed callerAlive
      = ⟨none, .panicked, (sequential_loop keccak backend groups MultiProof.empty).2⟩ := by
    unfold gather_proofs sessionOutcome
    rcases hl : sequential_loop keccak backend groups MultiProof.empty with ⟨fst, tr⟩
    rw [hl] at hn
    simp only at hn
    subst hn
    rfl
  refine ⟨by rw [key], by rw [key], fun pool => rfl, ?_⟩
  intro targets acc hb
  simp [harvestMerge, spawnedTaskSend, hb]

theorem backend_failure_aborts_session_witness :
    (gather_proofs (fun n => n) (fun _ => none) () [(.Account 1, [])] 3
        true).termination = .panicked
    ∧ (gather_proofs (fun n => n) (fun _ => none) () [(.Account 1, [])] 3
        true).delivered = none :=
  ⟨(backend_failure_aborts_session (fun n => n) (fun _ => none) Unit ()
      [(.Account 1, [])] 3 true ⟨(.Account 1, []), by simp, rfl⟩).1,
    (backend_failure_aborts_session (fun n => n) (fun _ => none) Unit ()
      [(.Account 1, [])] 3 true ⟨(.Account 1, []), by simp, rfl⟩).2.1⟩

/-- C8: when the caller has dropped the receiving half of the result channel,
the failed `tx.send` is silently discarded: the session still terminates
normally, delivers nothing, and performs no action after the send attempt
(the trace ends at `send`), in both sequential strategies. -/
theorem abandoned_caller_send_nonfatal (keccak : Nat → Nat)
    (backend : TargetBatch → Option MultiProof) (P : Type) (provider : P)
    (groups : List (StateAccess × List StateAccess)) (elapsed : Nat)
    (m : MultiProof) (tr : List SeqEvent)
    (h : sequential_loop keccak backend groups MultiProof.empty = (some m, tr)) :
    gather_proofs keccak backend provider groups elapsed false
      = ⟨none, .normal, tr ++ [.send]⟩
    ∧ gather_proofs_parallel keccak (some ⟨⟩) backend provider groups elapsed
        false = .ok ⟨none, .normal, tr ++ [.send]⟩ := by
  constructor
  · unfold gather_proofs sessionOutcome
    rw [h]
    rfl
  · unfold gather_proofs_parallel sessionOutcome
    rw [h]
    rfl

theorem abandoned_caller_send_nonfatal_witness :
    gather_proofs (fun n => n) (fun t => some (computeMultiproof t)) () [] 4
      false = ⟨none, .normal, [.send]⟩ :=
  (abandoned_caller_send_nonfatal (fun n => n)
    (fun t => some (computeMultiproof t)) Unit () [] 4 MultiProof.empty []
    rfl).1

/-- C10: when `BlockingTaskPool::build()` fails, `GatherProofsParallel::new`
(line 79) and the start of `gather_proofs_parallel` (line 155) `unwrap` the
failure and abort the process instead of propagating a typed construction
error. -/
theorem pool_build_failure_panics {V I P : Type} (view : V) (input : I)
    (keccak : Nat → Nat) (backend : TargetBatch → Option MultiProof)
    (provider : P) (groups : List (StateAccess × List StateAccess))
    (elapsed : Nat) (callerAlive : Bool)
    (buildResult : Option BlockingTaskPool) (h : buildResult = none) :
    GatherProofsParallel.new view input buildResult = .panicked
    ∧ gather_proofs_parallel keccak buildResult backend provider groups
        elapsed callerAlive = .panicked := by
  subst h
  exact ⟨rfl, rfl⟩

theorem pool_build_failure_panics_witness :
    GatherProofsParallel.new () () (none : Option BlockingTaskPool) = .panicked
    ∧ gather_proofs_parallel (fun n => n) none (fun _ => some MultiProof.empty)
        () [] 0 true = .panicked :=
  pool_build_failure_panics () () (fun n => n) (fun _ => some MultiProof.empty)
    () [] 0 true none rfl

section SerializationLemmas

/-- In every prefix of a sequential session's loop trace, the number of
dispatched batches exceeds the number of merged results by at most one. -/
theorem sequential_loop_take_count (keccak : Nat → Nat)
    (backend : TargetBatch → Option MultiProof)
    (groups : List (StateAccess × List StateAccess)) :
    ∀ (acc : MultiProof) (n : Nat),
      (((sequential_loop keccak backend groups acc).2.take n).countP
          SeqEvent.isDispatch)
        ≤ (((sequential_loop keccak backend groups acc).2.take n).countP
            SeqEvent.isMerged) + 1 := by
  induction groups with
  | nil => intro acc n; simp [sequential_loop]
  | cons g gs ih =>
      intro acc n
      rcases hb : backend (groupTargets keccak g) with _ | r
      · match n with
        | 0 => simp [sequential_loop, hb]
        | n + 1 => simp [sequential_loop, hb, List.countP_cons, SeqEvent.isDispatch]
      · match n with
        | 0 => simp [sequential_loop, hb]
        | 1 =>
            simp [sequential_loop, hb, List.countP_cons, SeqEvent.isDispatch,
              SeqEvent.isMerged]
        | n + 2 =>
            have := ih (acc.extend r) n
            simp only [sequential_loop, hb, List.take_succ_cons,
              List.countP_cons, SeqEvent.isDispatch, SeqEvent.isMerged] at *
            omega

/-- A successfully completed loop has merged exactly as many results as it
dispatched batches. -/
theorem sequential_loop_count_eq (keccak : Nat → Nat)
    (backend : TargetBatch → Option MultiProof)
    (groups : List (StateAccess × List StateAccess)) :
    ∀ (acc : MultiProof) (m : MultiProof) (tr : List SeqEvent),
      sequential_loop keccak backend groups acc = (some m, tr) →
      tr.countP SeqEvent.isDispatch = tr.countP SeqEvent.isMerged := by
  induction groups with
  | nil =>
      intro acc m tr h
      simp [sequential_loop] at h
      simp [h.2]
  | cons g gs ih =>
      intro acc m tr h
      rcases hb : backend (groupTargets keccak g) with _ | r
      · simp [sequential_loop, hb] at h
      · rcases hl : sequential_loop keccak backend gs (acc.extend r) with ⟨fst, tr'⟩
        simp [sequential_loop, hb, hl] at h
        rcases h with ⟨hfst, htr⟩
        subst htr
        have := ih (acc.extend r) m tr' (by rw [hl, hfst])
        simp [List.countP_cons, SeqEvent.isDispatch, SeqEvent.isMerged, this]

/-- Appending the final `send` preserves the dispatch/merge prefix bound. -/
theorem take_count_append_send (tr : List SeqEvent)
    (h : ∀ n, ((tr.take n).countP SeqEvent.isDispatch)
        ≤ ((tr.take n).countP SeqEvent.isMerged) + 1) :
    ∀ n, (((tr ++ [SeqEvent.send]).take n).countP SeqEvent.isDispatch)
        ≤ (((tr ++ [SeqEvent.send]).take n).countP SeqEvent.isMerged) + 1 := by
  intro n
  by_cases hn : n ≤ tr.length
  · rw [List.take_append_of_le_length hn]
    exact h n
  · have hlen : (tr ++ [SeqEvent.send]).length ≤ n := by
      simp
      omega
    rw [List.take_of_length_le hlen]
    have htr := h tr.length
    rw [List.take_length] at htr
    simp [List.countP_append, SeqEvent.isDispatch, SeqEvent.isMerged]
    omega

end SerializationLemmas

/-- C6: both sequential strategies serialize batches: in every prefix of a
session's trace the number of dispatched batches exceeds the number of
merged results by at most one (so batch N+1 is not dispatched before batch
N's result is merged and at most one batch is in flight); a normally
terminated session's trace is the loop trace followed by the single final
`send`, with dispatches and merges in exact balance; and the offloaded
strategy yields the same outcome as the direct one. -/
theorem sequential_serialization (keccak : Nat → Nat)
    (backend : TargetBatch → Option MultiProof) (P : Type) (provider : P)
    (groups : List (StateAccess × List StateAccess)) (elapsed : Nat)
    (callerAlive : Bool) :
    (∀ n, (((gather_proofs keccak backend provider groups elapsed
          callerAlive).trace.take n).countP SeqEvent.isDispatch)
        ≤ (((gather_proofs keccak backend provider groups elapsed
          callerAlive).trace.take n).countP SeqEvent.isMerged) + 1)
    ∧ ((gather_proofs keccak backend provider groups elapsed
          callerAlive).termination = .normal →
        (gather_proofs keccak backend provider groups elapsed callerAlive).trace
          = (sequential_loop keccak backend groups MultiProof.empty).2
              ++ [SeqEvent.send]
        ∧ ((sequential_loop keccak backend groups
              MultiProof.empty).2.countP SeqEvent.isDispatch)
          = ((sequential_loop keccak backend groups
              MultiProof.empty).2.countP SeqEvent.isMerged))
    ∧ (∀ pool, gather_proofs_parallel keccak (some pool) backend provider
        groups elapsed callerAlive
        = .ok (gather_proofs keccak backend provider groups elapsed
            callerAlive)) := by
  have hcount := sequential_loop_take_count keccak backend groups MultiProof.empty
  have hceq := sequential_loop_count_eq keccak backend groups MultiProof.empty
  rcases hl : sequential_loop keccak backend groups MultiProof.empty with ⟨fst, tr⟩
  rw [hl] at hcount
  simp only [hl]
  cases fst with
  | none =>
      have hrun : gather_proofs keccak backend provider groups elapsed
          callerAlive = ⟨none, .panicked, tr⟩ := by
        unfold gather_proofs sessionOutcome
        rw [hl]
      refine ⟨?_, ?_, fun pool => rfl⟩
      · intro n
        rw [hrun]
        exact hcount n
      · intro habs
        rw [hrun] at habs
        exact absurd habs (by simp)
  | some m =>
      have hrun : gather_proofs keccak backend provider groups elapsed
          callerAlive = ⟨if callerAlive then some ⟨provider, m, elapsed⟩
            else none, .normal, tr ++ [SeqEvent.send]⟩ := by
        unfold gather_proofs sessionOutcome
        rw [hl]
      refine ⟨?_, fun _ => ⟨by rw [hrun], hceq m tr hl⟩, fun pool => rfl⟩
      intro n
      rw [hrun]
      exact take_count_append_send tr hcount n

theorem sequential_serialization_witness :
    (gather_proofs (fun n => n) (fun t => some (computeMultiproof t)) () []
        0 true).trace
      = (sequential_loop (fun n => n) (fun t => some (computeMultiproof t)) []
          MultiProof.empty).2 ++ [SeqEvent.send]
    ∧ ((sequential_loop (fun n => n) (fun t => some (computeMultiproof t)) []
          MultiProof.empty).2.countP SeqEvent.isDispatch)
      = ((sequential_loop (fun n => n) (fun t => some (computeMultiproof t)) []
          MultiProof.empty).2.countP SeqEvent.isMerged) :=
  (sequential_serialization (fun n => n) (fun t => some (computeMultiproof t))
    Unit () [] 0 true).2.1 rfl

/-- The full event sequence a sequential session consumes, given how the
stream interleaved it into per-iteration groups. -/
def flattenGroups (groups : List (StateAccess × List StateAccess)) :
    List StateAccess :=
  (groups.map fun g => g.1 :: g.2).flatten

theorem groupTargets_eq_targetsOf (keccak : Nat → Nat)
    (g : StateAccess × List StateAccess) :
    groupTargets keccak g = targetsOf keccak (g.1 :: g.2) := by
  obtain ⟨first, rest⟩ := g
  cases first <;> rfl

theorem computeMultiproof_targetsOf_append (keccak : Nat → Nat)
    (l₁ l₂ : List StateAccess) :
    computeMultiproof (targetsOf keccak (l₁ ++ l₂))
      = (computeMultiproof (targetsOf keccak l₁)).extend
          (computeMultiproof (targetsOf keccak l₂)) := by
  rw [targetsOf, List.foldl_append]
  exact computeMultiproof_foldl keccak l₂ (targetsOf keccak l₁)

/-- With the backend behaving as specified, a sequential session's loop
always succeeds and its value depends only on the flattened event sequence,
not on the grouping. -/
theorem sequential_loop_value (keccak : Nat → Nat)
    (groups : List (StateAccess × List StateAccess)) :
    ∀ acc : MultiProof,
      (sequential_loop keccak (fun t => some (computeMultiproof t)) groups
          acc).1
        = some (acc.extend
            (computeMultiproof (targetsOf keccak (flattenGroups groups)))) := by
  induction groups with
  | nil =>
      intro acc
      simp [sequential_loop, flattenGroups, targetsOf, computeMultiproof_nil,
        MultiProof.extend_empty_right]
  | cons g gs ih =>
      intro acc
      have hflat : flattenGroups (g :: gs) = (g.1 :: g.2) ++ flattenGroups gs := by
        simp [flattenGroups]
      rw [hflat, computeMultiproof_targetsOf_append, ← MultiProof.extend_assoc,
        ← groupTargets_eq_targetsOf]
      simpa [sequential_loop] using ih (acc.extend (computeMultiproof (groupTargets keccak g)))

theorem gather_proofs_delivered (keccak : Nat → Nat)
    (backend : TargetBatch → Option MultiProof) (P : Type) (provider : P)
    (groups : List (StateAccess × List StateAccess)) (elapsed : Nat)
    (callerAlive : Bool) (m : MultiProof)
    (h : (sequential_loop keccak backend groups MultiProof.empty).1 = some m) :
    (gather_proofs keccak backend provider groups elapsed
        callerAlive).delivered
      = if callerAlive then some ⟨provider, m, elapsed⟩ else none := by
  unfold gather_proofs sessionOutcome
  rcases hl : sequential_loop keccak backend groups MultiProof.empty with ⟨fst, tr⟩
  rw [hl] at h
  have h' : fst = some m := h
  subst h'
  rfl

/-- With the specified backend, a sequential session delivers a result
determined by the flattened event sequence alone. -/
theorem gather_proofs_delivered_flatten (keccak : Nat → Nat) (P : Type)
    (provider : P) (elapsed : Nat) (callerAlive : Bool)
    (g₁ g₂ : List (StateAccess × List StateAccess))
    (h : flattenGroups g₁ = flattenGroups g₂) :
    (gather_proofs keccak (fun t => some (computeMultiproof t)) provider g₁
        elapsed callerAlive).delivered
      = (gather_proofs keccak (fun t => some (computeMultiproof t)) provider
          g₂ elapsed callerAlive).delivered := by
  rw [gather_proofs_delivered keccak _ P provider g₁ elapsed callerAlive _
      (sequential_loop_value keccak g₁ MultiProof.empty),
    gather_proofs_delivered keccak _ P provider g₂ elapsed callerAlive _
      (sequential_loop_value keccak g₂ MultiProof.empty),
    h]

/-- C5: the dispatch rule of the fan-out engine: a unit of work is handed to
the task spawner exactly when the drained batch is non-empty; each dispatch
packages the cloned view and the shared overlay reference with the batch and
appends exactly one fresh, unresolved receiving handle to `pending`; an
empty drained batch spawns nothing and leaves `pending` untouched; and the
units of work an activation of `poll` spawns are exactly those of its
dispatch step over the drained batch. -/
theorem dispatch_rule {V I : Type} (view : V) (input : I)
    (targets : TargetBatch) (pending : List (Option MultiProof))
    (keccak : Nat → Nat) (avail : List StateAccess) (closeReady : Bool)
    (st : GatherProofsParallel V I) :
    (targets.isEmpty = false →
      dispatchStep view input targets pending
        = (pending ++ [none], [⟨view, input, targets⟩]))
    ∧ (targets.isEmpty = true →
      dispatchStep view input targets pending = (pending, []))
    ∧ (st.closed = false →
      (GatherProofsParallel.poll keccak avail closeReady st).2.2
        = (dispatchStep st.view st.input (targetsOf keccak avail)
            st.pending).2) := by
  refine ⟨fun h => by simp [dispatchStep, h], fun h => by simp [dispatchStep, h], ?_⟩
  intro hclosed
  unfold GatherProofsParallel.poll
  rw [hclosed]
  simp only [Bool.false_and, Bool.false_eq_true, if_false]
  cases hfc : findCompleted
      (dispatchStep st.view st.input (targetsOf keccak avail) st.pending).1 with
  | none => simp [hfc]
  | some pr => simp [hfc]

theorem dispatch_rule_witness :
    dispatchStep () () ([(1, (∅ : Finset Nat))] : TargetBatch) []
      = ([none], [⟨(), (), [(1, (∅ : Finset Nat))]⟩]) :=
  (dispatch_rule () () [(1, ∅)] [] (fun n => n) [] false
    ⟨(), (), false, [], MultiProof.empty⟩).1 rfl

theorem pollLoop_ready {V I : Type} (fuel : Nat) :
    ∀ (st : GatherProofsParallel V I) (m : MultiProof)
      (st' : GatherProofsParallel V I),
      pollLoop fuel st = (.ready m, st') →
      st'.closed = true ∧ st'.pending = [] := by
  induction fuel with
  | zero =>
      intro st m st' h
      simp [pollLoop] at h
  | succ fuel ih =>
      intro st m st' h
      unfold pollLoop at h
      by_cases hterm : (st.closed && st.pending.isEmpty) = true
      · rw [if_pos hterm] at h
        rcases Bool.and_eq_true .. |>.mp hterm with ⟨hc, hp⟩
        simp only [Prod.mk.injEq] at h
        rw [← h.2]
        exact ⟨hc, List.isEmpty_iff.mp hp⟩
      · rw [if_neg hterm] at h
        cases hfc : findCompleted st.pending with
        | none =>
            rw [hfc] at h
            simp at h
        | some pr =>
            rw [hfc] at h
            exact ih _ m st' h

/-- C2 as stated is false: a poll entered in a non-terminal state (`closed`
still false, one already-resolved unit of pending work) observes closure
during its drain, harvests the resolved result, and returns `Ready` within
the same activation — refuting "in every other state poll returns
Pending". -/
theorem poll_terminal_iff_cex :
    ((GatherProofsParallel.poll (fun n => n) [] true
        (⟨(), (), false, [some MultiProof.empty], MultiProof.empty⟩ :
          GatherProofsParallel Unit Unit)).1.isReady = true)
    ∧ ¬(((⟨(), (), false, [some MultiProof.empty], MultiProof.empty⟩ :
          GatherProofsParallel Unit Unit).closed = true)
        ∧ ((⟨(), (), false, [some MultiProof.empty], MultiProof.empty⟩ :
          GatherProofsParallel Unit Unit).pending = [])) :=
  ⟨rfl, by simp⟩

/-- C2 amended: `poll` returns `Ready` only when, at the moment of return,
the stream has been observed closed and `pending` is empty (the successor
state satisfies `closed = true` and `pending = []`), and every poll entered
with `closed = true` and empty `pending` immediately returns `Ready` with
the accumulated multiproof; but `Ready` is not equivalent to the entry state
already being terminal, since one activation may observe closure and harvest
the last pending result itself. -/
theorem poll_terminal_amended {V I : Type} (keccak : Nat → Nat)
    (avail : List StateAccess) (closeReady : Bool)
    (st : GatherProofsParallel V I) :
    (∀ m st' d, GatherProofsParallel.poll keccak avail closeReady st
        = (.ready m, st', d) → st'.closed = true ∧ st'.pending = [])
    ∧ (st.closed = true → st.pending = [] →
      GatherProofsParallel.poll keccak avail closeReady st
        = (.ready st.multiproof, { st with multiproof := MultiProof.empty },
            [])) := by
  constructor
  · intro m st' d h
    unfold GatherProofsParallel.poll at h
    by_cases hterm : (st.closed && st.pending.isEmpty) = true
    · rw [if_pos hterm] at h
      rcases Bool.and_eq_true .. |>.mp hterm with ⟨hc, hp⟩
      simp only [Prod.mk.injEq] at h
      rw [← h.2.1]
      exact ⟨hc, List.isEmpty_iff.mp hp⟩
    · rw [if_neg hterm] at h
      dsimp only at h
      split at h
      · simp only [Prod.mk.injEq] at h
        exact pollLoop_ready _ _ m st' (by rw [← h.1, ← h.2.1])
      · simp at h
  · intro hclosed hpending
    unfold GatherProofsParallel.poll
    rw [hclosed, hpending]
    rfl

theorem poll_terminal_amended_witness :
    GatherProofsParallel.poll (fun n => n) [.Account 3] false
        (⟨(), (), true, [], MultiProof.empty⟩ : GatherProofsParallel Unit Unit)
      = (.ready MultiProof.empty,
          (⟨(), (), true, [], MultiProof.empty⟩ :
            GatherProofsParallel Unit Unit), []) :=
  (poll_terminal_amended (fun n => n) [.Account 3] false
    ⟨(), (), true, [], MultiProof.empty⟩).2 rfl rfl

/-!
Session-level model of the parallel fan-out engine: a full gathering session
is a sequence of `poll` activations interleaved with environment steps that
resolve outstanding units of work.  The environment controls how the event
stream is chunked across activations and in which order spawned work
resolves; with the backend behaving as specified, the final `Ready`
multiproof is the multiproof of the whole consumed event sequence, whatever
the chunking and the resolution order.
-/

/-- Merge of a list of multiproof fragments. -/
def mpSum (l : List MultiProof) : MultiProof :=
  l.foldr MultiProof.extend MultiProof.empty

theorem mpSum_append (l₁ l₂ : List MultiProof) :
    mpSum (l₁ ++ l₂) = (mpSum l₁).extend (mpSum l₂) := by
  induction l₁ with
  | nil => simp [mpSum, MultiProof.extend_empty_left]
  | cons a l ih =>
      simp only [List.cons_append, mpSum, List.foldr_cons] at *
      rw [ih, MultiProof.extend_assoc]

theorem dispatchStep_fst {V I : Type} (view : V) (input : I)
    (targets : TargetBatch) (pending : List (Option MultiProof)) :
    (dispatchStep view input targets pending).1
      = pending ++ if targets.isEmpty then [] else [none] := by
  by_cases h : targets.isEmpty <;> simp [dispatchStep, h]

theorem findCompleted_none (l : List (Option MultiProof))
    (h : findCompleted l = none) :
    l.filter Option.isNone = l ∧ l.filterMap id = [] := by
  induction l with
  | nil => simp
  | cons o rest ih =>
      cases o with
      | none =>
          rw [findCompleted] at h
          cases hr : findCompleted rest with
          | none =>
              obtain ⟨h1, h2⟩ := ih hr
              simp [List.filter, Option.isNone, h1, h2]
          | some pr => rw [hr] at h; simp at h
      | some r => simp [findCompleted] at h

theorem findCompleted_some (l : List (Option MultiProof)) :
    ∀ r rest, findCompleted l = some (r, rest) →
      countCompleted l = countCompleted rest + 1
      ∧ rest.filter Option.isNone = l.filter Option.isNone
      ∧ l.filterMap id = r :: rest.filterMap id := by
  induction l with
  | nil => intro r rest h; simp [findCompleted] at h
  | cons o tail ih =>
      intro r rest h
      cases o with
      | some r' =>
          rw [findCompleted] at h
          obtain ⟨h1, h2⟩ := Prod.mk.injEq .. ▸ Option.some.inj h
          subst h1
          subst h2
          refine ⟨?_, ?_, ?_⟩
          · simp [countCompleted, List.countP_cons]
          · simp [List.filter, Option.isNone]
          · simp
      | none =>
          rw [findCompleted] at h
          cases hr : findCompleted tail with
          | none => rw [hr] at h; simp at h
          | some pr =>
              obtain ⟨r0, rest0⟩ := pr
              rw [hr] at h
              simp only [Option.some.injEq, Prod.mk.injEq] at h
              obtain ⟨h1, h2⟩ := h
              subst h1
              obtain ⟨hc, hf, hm⟩ := ih r0 rest0 hr
              subst h2
              refine ⟨?_, ?_, ?_⟩
              · simpa [countCompleted, List.countP_cons] using hc
              · simp [List.filter, Option.isNone, hf]
              · simpa using hm

/-- Characterization of the harvest loop: with enough fuel it removes every
already-resolved element of `pending`, merging the removed values (in order)
into the accumulator; it yields `Ready` only with empty pending, returning
that accumulated total. -/
theorem pollLoop_char {V I : Type} :
    ∀ (fuel : Nat) (st : GatherProofsParallel V I) (res : PollResult)
      (st' : GatherProofsParallel V I),
      countCompleted st.pending < fuel →
      pollLoop fuel st = (res, st') →
      st'.pending = st.pending.filter Option.isNone
      ∧ (res = .pending → st'.multiproof
          = st.multiproof.extend (mpSum (st.pending.filterMap id)))
      ∧ (∀ m, res = .ready m → st'.pending = []
          ∧ m = st.multiproof.extend (mpSum (st.pending.filterMap id))) := by
  intro fuel
  induction fuel with
  | zero => intro st res st' hf; omega
  | succ fuel ih =>
      intro st res st' hf h
      unfold pollLoop at h
      by_cases hterm : (st.closed && st.pending.isEmpty) = true
      · rw [if_pos hterm] at h
        rcases Bool.and_eq_true .. |>.mp hterm with ⟨_, hp⟩
        have hpnil : st.pending = [] := List.isEmpty_iff.mp hp
        simp only [Prod.mk.injEq] at h
        obtain ⟨hres, hst⟩ := h
        subst hst
        refine ⟨by simp [hpnil], ?_, ?_⟩
        · intro habs
          rw [habs] at hres
          exact absurd hres (by simp)
        · intro m hm
          rw [hm] at hres
          refine ⟨by simp [hpnil], ?_⟩
          rw [hpnil]
          simpa [mpSum, MultiProof.extend_empty_right] using
            (PollResult.ready.inj hres).symm
      · rw [if_neg hterm] at h
        cases hfc : findCompleted st.pending with
        | none =>
            rw [hfc] at h
            obtain ⟨hfil, hmap⟩ := findCompleted_none st.pending hfc
            simp only [Prod.mk.injEq] at h
            obtain ⟨hres, hst⟩ := h
            subst hst
            refine ⟨hfil.symm, ?_, ?_⟩
            · intro _
              rw [hmap]
              simp [mpSum, MultiProof.extend_empty_right]
            · intro m hm
              rw [hm] at hres
              exact absurd hres (by simp)
        | some pr =>
            obtain ⟨r, rest⟩ := pr
            rw [hfc] at h
            obtain ⟨hc, hfil, hmap⟩ := findCompleted_some st.pending r rest hfc
            have hlt : countCompleted rest < fuel := by omega
            obtain ⟨ih1, ih2, ih3⟩ := ih _ res st' hlt h
            have hsum : (st.multiproof.extend r).extend (mpSum (rest.filterMap id))
                = st.multiproof.extend (mpSum (st.pending.filterMap id)) := by
              rw [hmap]
              show _ = st.multiproof.extend (mpSum (r :: rest.filterMap id))
              rw [MultiProof.extend_assoc]
              rfl
            refine ⟨by rw [ih1, hfil], ?_, ?_⟩
            · intro hres
              rw [ih2 hres]
              exact hsum
            · intro m hm
              obtain ⟨hp, hv⟩ := ih3 m hm
              exact ⟨hp, by rw [hv]; exact hsum⟩

/-- Characterization of one activation of `poll` (given the real-environment
fact that a closed stream yields no further events): the successor pending
collection is the previous one, plus one unresolved handle when the drained
batch is non-empty, minus every resolved handle; the removed values are
merged into the accumulator; `Ready` occurs only with empty pending and
returns that accumulated total. -/
theorem poll_char {V I : Type} (keccak : Nat → Nat) (avail : List StateAccess)
    (closeReady : Bool) (st : GatherProofsParallel V I) (res : PollResult)
    (st' : GatherProofsParallel V I) (d : List (DispatchRecord V I))
    (hclosed : st.closed = true → avail = [])
    (h : GatherProofsParallel.poll keccak avail closeReady st = (res, st', d)) :
    st'.pending = (st.pending ++ if (targetsOf keccak avail).isEmpty then []
        else [none]).filter Option.isNone
    ∧ (res = .pending → st'.multiproof
        = st.multiproof.extend (mpSum ((st.pending
            ++ if (targetsOf keccak avail).isEmpty then []
              else [none]).filterMap id)))
    ∧ (∀ m, res = .ready m → st'.pending = []
        ∧ m = st.multiproof.extend (mpSum ((st.pending
            ++ if (targetsOf keccak avail).isEmpty then []
              else [none]).filterMap id))) := by
  unfold GatherProofsParallel.poll at h
  by_cases hterm : (st.closed && st.pending.isEmpty) = true
  · rw [if_pos hterm] at h
    rcases Bool.and_eq_true .. |>.mp hterm with ⟨hc, hp⟩
    have hpnil : st.pending = [] := List.isEmpty_iff.mp hp
    have havail : avail = [] := hclosed hc
    subst havail
    simp only [Prod.mk.injEq] at h
    obtain ⟨hres, hst, _⟩ := h
    subst hst
    refine ⟨by simp [hpnil, targetsOf], ?_, ?_⟩
    · intro habs
      rw [habs] at hres
      exact absurd hres (by simp)
    · intro m hm
      rw [hm] at hres
      refine ⟨by simp [hpnil], ?_⟩
      rw [hpnil]
      simpa [targetsOf, mpSum, MultiProof.extend_empty_right] using
        (PollResult.ready.inj hres).symm
  · rw [if_neg hterm] at h
    dsimp only at h
    have hdf := dispatchStep_fst st.view st.input (targetsOf keccak avail)
      st.pending
    split at h
    · rename_i r rest heq
      obtain ⟨hcnt, hfil, hmap⟩ := findCompleted_some _ r rest heq
      simp only [Prod.mk.injEq] at h
      obtain ⟨hres, hst, _⟩ := h
      have hpair : pollLoop (countCompleted rest + 1)
          { view := st.view, input := st.input,
            closed := st.closed || closeReady, pending := rest,
            multiproof := st.multiproof.extend r } = (res, st') := by
        rw [← hres, ← hst]
      obtain ⟨c1, c2, c3⟩ := pollLoop_char (countCompleted rest + 1) _ res st'
        (Nat.lt_succ_self _) hpair
      have hsum : (st.multiproof.extend r).extend (mpSum (rest.filterMap id))
          = st.multiproof.extend (mpSum ((st.pending
              ++ if (targetsOf keccak avail).isEmpty then []
                else [none]).filterMap id)) := by
        rw [← hdf, hmap]
        show _ = st.multiproof.extend (mpSum (r :: rest.filterMap id))
        rw [MultiProof.extend_assoc]
        rfl
      refine ⟨by rw [c1, hfil, hdf], ?_, ?_⟩
      · intro hr
        rw [c2 hr]
        exact hsum
      · intro m hm
        obtain ⟨hp, hv⟩ := c3 m hm
        exact ⟨hp, by rw [hv]; exact hsum⟩
    · rename_i heq
      obtain ⟨hfil, hmap⟩ := findCompleted_none _ heq
      simp only [Prod.mk.injEq] at h
      obtain ⟨hres, hst, _⟩ := h
      subst hst
      refine ⟨by rw [← hdf]; exact hfil.symm, ?_, ?_⟩
      · intro _
        rw [← hdf, hmap]
        simp [mpSum, MultiProof.extend_empty_right]
      · intro m hm
        rw [hm] at hres
        exact absurd hres (by simp)

/-- Agreement between the pending collection and the specified eventual
values of its handles: a handle that has already resolved did resolve to its
specified value. -/
def Agrees (ps : List (Option MultiProof)) (vs : List MultiProof) : Prop :=
  List.Forall₂ (fun p v => ∀ r, p = some r → v = r) ps vs

/-- The specified values of the handles still unresolved, in order. -/
def keepUnresolved : List (Option MultiProof) → List MultiProof →
    List MultiProof
  | [], _ => []
  | _ :: _, [] => []
  | none :: ps, v :: vs => v :: keepUnresolved ps vs
  | some _ :: ps, _ :: vs => keepUnresolved ps vs

theorem mpSum_decompose (ps : List (Option MultiProof))
    (vs : List MultiProof) (h : Agrees ps vs) :
    mpSum vs = (mpSum (ps.filterMap id)).extend
      (mpSum (keepUnresolved ps vs)) := by
  induction h with
  | nil => simp [mpSum, keepUnresolved, MultiProof.extend_empty_left]
  | @cons p v ps' vs' hpv _ ih =>
      cases p with
      | some r =>
          have hv : v = r := hpv r rfl
          subst hv
          show mpSum (v :: vs') = (mpSum (v :: ps'.filterMap id)).extend _
          show v.extend (mpSum vs')
            = (v.extend (mpSum (ps'.filterMap id))).extend
                (mpSum (keepUnresolved ps' vs'))
          rw [MultiProof.extend_assoc, ← ih]
      | none =>
          show v.extend (mpSum vs')
            = (mpSum (ps'.filterMap id)).extend
                (v.extend (mpSum (keepUnresolved ps' vs')))
          rw [← MultiProof.extend_assoc,
            MultiProof.extend_comm (mpSum (ps'.filterMap id)) v,
            MultiProof.extend_assoc, ← ih]

theorem agrees_filter_keep (ps : List (Option MultiProof))
    (vs : List MultiProof) (h : Agrees ps vs) :
    Agrees (ps.filter Option.isNone) (keepUnresolved ps vs) := by
  induction h with
  | nil => exact List.Forall₂.nil
  | @cons p v ps' vs' hpv _ ih =>
      cases p with
      | some r =>
          show Agrees (ps'.filter Option.isNone) (keepUnresolved ps' vs')
          exact ih
      | none =>
          show Agrees (none :: ps'.filter Option.isNone)
            (v :: keepUnresolved ps' vs')
          exact List.Forall₂.cons (fun r hr => nomatch hr) ih

theorem agrees_append (ps₁ ps₂ : List (Option MultiProof))
    (vs₁ vs₂ : List MultiProof) (h₁ : Agrees ps₁ vs₁) (h₂ : Agrees ps₂ vs₂) :
    Agrees (ps₁ ++ ps₂) (vs₁ ++ vs₂) := by
  induction h₁ with
  | nil => exact h₂
  | cons hpv _ ih => exact List.Forall₂.cons hpv ih

theorem agrees_resolve (l₁ l₂ : List (Option MultiProof))
    (v₁ v₂ : List MultiProof) (v : MultiProof)
    (hlen : l₁.length = v₁.length)
    (h : Agrees (l₁ ++ none :: l₂) (v₁ ++ v :: v₂)) :
    Agrees (l₁ ++ some v :: l₂) (v₁ ++ v :: v₂) := by
  induction l₁ generalizing v₁ with
  | nil =>
      cases v₁ with
      | nil =>
          cases h with
          | cons _ htail =>
              exact List.Forall₂.cons
                (fun r hr => (Option.some.inj hr).symm ▸ rfl) htail
      | cons a as => simp at hlen
  | cons p l₁' ih =>
      cases v₁ with
      | nil => simp at hlen
      | cons a v₁' =>
          cases h with
          | cons hpv htail =>
              exact List.Forall₂.cons hpv
                (ih v₁' (by simpa using hlen) htail)

theorem mpSum_dispatch (keccak : Nat → Nat) (avail : List StateAccess)
    (vs : List MultiProof) :
    mpSum (vs ++ if (targetsOf keccak avail).isEmpty then []
        else [computeMultiproof (targetsOf keccak avail)])
      = (mpSum vs).extend (computeMultiproof (targetsOf keccak avail)) := by
  by_cases hb : (targetsOf keccak avail).isEmpty
  · rw [if_pos hb, List.append_nil, List.isEmpty_iff.mp hb,
      computeMultiproof_nil, MultiProof.extend_empty_right]
  · rw [if_neg hb, mpSum_append]
    show (mpSum vs).extend
        ((computeMultiproof (targetsOf keccak avail)).extend
          MultiProof.empty) = _
    rw [MultiProof.extend_empty_right]

theorem agrees_dispatch (c : Bool) (w : MultiProof)
    (ps : List (Option MultiProof)) (vs : List MultiProof)
    (h : Agrees ps vs) :
    Agrees (ps ++ if c then [] else [none])
      (vs ++ if c then [] else [w]) := by
  cases c with
  | true => simpa using h
  | false =>
      exact agrees_append _ _ _ _ h
        (List.Forall₂.cons (fun r hr => nomatch hr) List.Forall₂.nil)

theorem session_total (acc : MultiProof) (ps : List (Option MultiProof))
    (vs : List MultiProof) (hag : Agrees ps vs) :
    (acc.extend (mpSum (ps.filterMap id))).extend
        (mpSum (keepUnresolved ps vs))
      = acc.extend (mpSum vs) := by
  rw [MultiProof.extend_assoc, ← mpSum_decompose ps vs hag]

/-- A full run of the parallel fan-out engine, as its environment drives it:
starting from the state `GatherProofsParallel::new` builds, activations of
`poll` (each draining whatever chunk of events the stream makes available;
a closed stream yields no further events) interleave with environment steps
that resolve an outstanding unit of work to its specified value — the
multiproof of the batch it was dispatched with, the backend behaving as
specified.  A configuration carries the engine state, the specified eventual
value of each pending handle in order, and the events consumed so far. -/
inductive FanOutRun {V I : Type} (keccak : Nat → Nat) (view : V) (input : I) :
    GatherProofsParallel V I → List MultiProof → List StateAccess → Prop
  | init :
      FanOutRun keccak view input
        ⟨view, input, false, [], MultiProof.empty⟩ [] []
  | poll (st : GatherProofsParallel V I) (ann : List MultiProof)
      (consumed avail : List StateAccess) (closeReady : Bool)
      (st' : GatherProofsParallel V I) (d : List (DispatchRecord V I))
      (hrun : FanOutRun keccak view input st ann consumed)
      (hclosed : st.closed = true → avail = [])
      (hpoll : GatherProofsParallel.poll keccak avail closeReady st
        = (.pending, st', d)) :
      FanOutRun keccak view input st'
        (keepUnresolved
          (st.pending ++ if (targetsOf keccak avail).isEmpty then []
            else [none])
          (ann ++ if (targetsOf keccak avail).isEmpty then []
            else [computeMultiproof (targetsOf keccak avail)]))
        (consumed ++ avail)
  | resolve (st : GatherProofsParallel V I)
      (l₁ l₂ : List (Option MultiProof)) (v₁ v₂ : List MultiProof)
      (v : MultiProof) (consumed : List StateAccess)
      (hrun : FanOutRun keccak view input st (v₁ ++ v :: v₂) consumed)
      (hpend : st.pending = l₁ ++ none :: l₂)
      (hlen : l₁.length = v₁.length) :
      FanOutRun keccak view input { st with pending := l₁ ++ some v :: l₂ }
        (v₁ ++ v :: v₂) consumed

/-- Session invariant of the fan-out engine: resolved handles hold their
specified values, and the accumulator merged with every handle's specified
value is the multiproof of all events consumed so far. -/
theorem fanOutRun_invariant {V I : Type} (keccak : Nat → Nat) (view : V)
    (input : I) (st : GatherProofsParallel V I) (ann : List MultiProof)
    (consumed : List StateAccess)
    (h : FanOutRun keccak view input st ann consumed) :
    Agrees st.pending ann
    ∧ st.multiproof.extend (mpSum ann)
      = computeMultiproof (targetsOf keccak consumed) := by
  induction h with
  | init =>
      refine ⟨List.Forall₂.nil, ?_⟩
      show MultiProof.empty.extend (mpSum []) = computeMultiproof []
      rw [computeMultiproof_nil]
      exact MultiProof.extend_empty_right _
  | poll st ann consumed avail closeReady st' d hrun hclosed hpoll ih =>
      obtain ⟨hag, htot⟩ := ih
      obtain ⟨hp', hmp, _⟩ :=
        poll_char keccak avail closeReady st .pending st' d hclosed hpoll
      have hag1 := agrees_dispatch (targetsOf keccak avail).isEmpty
        (computeMultiproof (targetsOf keccak avail)) st.pending ann hag
      refine ⟨?_, ?_⟩
      · rw [hp']
        exact agrees_filter_keep _ _ hag1
      · rw [hmp rfl, session_total _ _ _ hag1, mpSum_dispatch,
          ← MultiProof.extend_assoc, htot,
          ← computeMultiproof_targetsOf_append]
  | resolve st l₁ l₂ v₁ v₂ v consumed hrun hpend hlen ih =>
      obtain ⟨hag, htot⟩ := ih
      exact ⟨agrees_resolve l₁ l₂ v₁ v₂ v hlen (hpend ▸ hag), htot⟩

/-- The terminal activation of a fan-out session: whatever the chunking of
the event stream across activations and whatever the order in which spawned
work resolved, the `Ready` multiproof is the multiproof of the whole
consumed event sequence. -/
theorem fanOutRun_final {V I : Type} (keccak : Nat → Nat) (view : V)
    (input : I) (st st' : GatherProofsParallel V I) (ann : List MultiProof)
    (consumed avail : List StateAccess) (closeReady : Bool) (m : MultiProof)
    (d : List (DispatchRecord V I))
    (hrun : FanOutRun keccak view input st ann consumed)
    (hclosed : st.closed = true → avail = [])
    (hpoll : GatherProofsParallel.poll keccak avail closeReady st
      = (.ready m, st', d)) :
    m = computeMultiproof (targetsOf keccak (consumed ++ avail)) := by
  obtain ⟨hag, htot⟩ :=
    fanOutRun_invariant keccak view input st ann consumed hrun
  obtain ⟨hp', _, hready⟩ :=
    poll_char keccak avail closeReady st _ st' d hclosed hpoll
  obtain ⟨hpe, hm⟩ := hready m rfl
  have hag1 := agrees_dispatch (targetsOf keccak avail).isEmpty
    (computeMultiproof (targetsOf keccak avail)) st.pending ann hag
  have hfilnil : (st.pending ++ if (targetsOf keccak avail).isEmpty then []
      else [none]).filter Option.isNone = [] := by
    rw [← hp']
    exact hpe
  have hkeep : keepUnresolved
      (st.pending ++ if (targetsOf keccak avail).isEmpty then [] else [none])
      (ann ++ if (targetsOf keccak avail).isEmpty then []
        else [computeMultiproof (targetsOf keccak avail)]) = [] := by
    have h2 := agrees_filter_keep _ _ hag1
    rw [hfilnil] at h2
    exact List.forall₂_nil_left_iff.mp h2
  have hstep := session_total st.multiproof _ _ hag1
  rw [hkeep] at hstep
  have hbig : m = st.multiproof.extend (mpSum (ann
      ++ if (targetsOf keccak avail).isEmpty then []
        else [computeMultiproof (targetsOf keccak avail)])) := by
    rw [hm, ← hstep]
    exact (MultiProof.extend_empty_right _).symm
  rw [hbig, mpSum_dispatch, ← MultiProof.extend_assoc, htot,
    ← computeMultiproof_targetsOf_append]

/-- C1: batching invariance: with the Proof Backend and the multiproof merge
behaving as specified (merge commutative and associative with the empty
proof as identity, fragments covering exactly the targets), the final merged
multiproof of a gathering session depends only on the flattened sequence of
`StateAccess` events, not on how the non-blocking drain chunks them into
delivery batches: the sequential strategies deliver equal results for any
two groupings of the same event sequence, and every run of the parallel
fan-out engine that reaches `Ready` yields the multiproof of its whole
consumed event sequence — so two fan-out sessions over the same events,
whatever their chunking across activations and their work-resolution
orders, end with an identical final multiproof. -/
theorem batching_invariance {V I : Type} (keccak : Nat → Nat) (P : Type)
    (provider : P) (elapsed : Nat) (callerAlive : Bool)
    (g₁ g₂ : List (StateAccess × List StateAccess))
    (view : V) (input : I) (st₁ st₁' st₂ st₂' : GatherProofsParallel V I)
    (ann₁ ann₂ : List MultiProof)
    (consumed₁ avail₁ consumed₂ avail₂ : List StateAccess)
    (closeReady₁ closeReady₂ : Bool) (m₁ m₂ : MultiProof)
    (d₁ d₂ : List (DispatchRecord V I))
    (hseq : flattenGroups g₁ = flattenGroups g₂)
    (hrun₁ : FanOutRun keccak view input st₁ ann₁ consumed₁)
    (hclosed₁ : st₁.closed = true → avail₁ = [])
    (hpoll₁ : GatherProofsParallel.poll keccak avail₁ closeReady₁ st₁
      = (.ready m₁, st₁', d₁))
    (hrun₂ : FanOutRun keccak view input st₂ ann₂ consumed₂)
    (hclosed₂ : st₂.closed = true → avail₂ = [])
    (hpoll₂ : GatherProofsParallel.poll keccak avail₂ closeReady₂ st₂
      = (.ready m₂, st₂', d₂))
    (hpar : consumed₁ ++ avail₁ = consumed₂ ++ avail₂) :
    (gather_proofs keccak (fun t => some (computeMultiproof t)) provider g₁
        elapsed callerAlive).delivered
      = (gather_proofs keccak (fun t => some (computeMultiproof t)) provider
          g₂ elapsed callerAlive).delivered
    ∧ m₁ = computeMultiproof (targetsOf keccak (consumed₁ ++ avail₁))
    ∧ m₁ = m₂ := by
  refine ⟨gather_proofs_delivered_flatten keccak P provider elapsed
      callerAlive g₁ g₂ hseq, ?_, ?_⟩
  · exact fanOutRun_final keccak view input st₁ st₁' ann₁ consumed₁ avail₁
      closeReady₁ m₁ d₁ hrun₁ hclosed₁ hpoll₁
  · rw [fanOutRun_final keccak view input st₁ st₁' ann₁ consumed₁ avail₁
        closeReady₁ m₁ d₁ hrun₁ hclosed₁ hpoll₁,
      fanOutRun_final keccak view input st₂ st₂' ann₂ consumed₂ avail₂
        closeReady₂ m₂ d₂ hrun₂ hclosed₂ hpoll₂,
      hpar]

theorem batching_invariance_witness :
    (gather_proofs (fun n => n) (fun t => some (computeMultiproof t)) ()
        [(.Account 1, [.StorageSlot 1 2])] 0 true).delivered
      = (gather_proofs (fun n => n) (fun t => some (computeMultiproof t)) ()
          [(.Account 1, []), (.StorageSlot 1 2, [])] 0 true).delivered
    ∧ MultiProof.empty.extend (computeMultiproof (targetsOf (fun n => n)
        [.Account 1, .StorageSlot 1 2]))
      = (MultiProof.empty.extend (computeMultiproof (targetsOf (fun n => n)
          [.Account 1]))).extend (computeMultiproof (targetsOf (fun n => n)
          [.StorageSlot 1 2])) := by
  have hrunA : FanOutRun (fun n => n) () ()
      (⟨(), (), false, [some (computeMultiproof (targetsOf (fun n => n)
          [.Account 1, .StorageSlot 1 2]))], MultiProof.empty⟩ :
        GatherProofsParallel Unit Unit)
      [computeMultiproof (targetsOf (fun n => n)
        [.Account 1, .StorageSlot 1 2])]
      [.Account 1, .StorageSlot 1 2] :=
    FanOutRun.resolve
      (⟨(), (), false, [none], MultiProof.empty⟩ :
        GatherProofsParallel Unit Unit)
      [] [] [] []
      (computeMultiproof (targetsOf (fun n => n)
        [.Account 1, .StorageSlot 1 2]))
      [.Account 1, .StorageSlot 1 2]
      (FanOutRun.poll
        (⟨(), (), false, [], MultiProof.empty⟩ :
          GatherProofsParallel Unit Unit)
        [] [] [.Account 1, .StorageSlot 1 2] false
        ⟨(), (), false, [none], MultiProof.empty⟩
        [⟨(), (), targetsOf (fun n => n) [.Account 1, .StorageSlot 1 2]⟩]
        FanOutRun.init (fun h => nomatch h) rfl)
      rfl rfl
  have hrunB : FanOutRun (fun n => n) () ()
      (⟨(), (), false, [some (computeMultiproof (targetsOf (fun n => n)
          [.StorageSlot 1 2]))],
        MultiProof.empty.extend (computeMultiproof (targetsOf (fun n => n)
          [.Account 1]))⟩ : GatherProofsParallel Unit Unit)
      [computeMultiproof (targetsOf (fun n => n) [.StorageSlot 1 2])]
      [.Account 1, .StorageSlot 1 2] :=
    FanOutRun.resolve
      (⟨(), (), false, [none], MultiProof.empty.extend
          (computeMultiproof (targetsOf (fun n => n) [.Account 1]))⟩ :
        GatherProofsParallel Unit Unit)
      [] [] [] []
      (computeMultiproof (targetsOf (fun n => n) [.StorageSlot 1 2]))
      [.Account 1, .StorageSlot 1 2]
      (FanOutRun.poll
        (⟨(), (), false, [some (computeMultiproof (targetsOf (fun n => n)
            [.Account 1]))], MultiProof.empty⟩ :
          GatherProofsParallel Unit Unit)
        [computeMultiproof (targetsOf (fun n => n) [.Account 1])]
        [.Account 1] [.StorageSlot 1 2] false
        ⟨(), (), false, [none], MultiProof.empty.extend
          (computeMultiproof (targetsOf (fun n => n) [.Account 1]))⟩
        [⟨(), (), targetsOf (fun n => n) [.StorageSlot 1 2]⟩]
        (FanOutRun.resolve
          (⟨(), (), false, [none], MultiProof.empty⟩ :
            GatherProofsParallel Unit Unit)
          [] [] [] []
          (computeMultiproof (targetsOf (fun n => n) [.Account 1]))
          [.Account 1]
          (FanOutRun.poll
            (⟨(), (), false, [], MultiProof.empty⟩ :
              GatherProofsParallel Unit Unit)
            [] [] [.Account 1] false
            ⟨(), (), false, [none], MultiProof.empty⟩
            [⟨(), (), targetsOf (fun n => n) [.Account 1]⟩]
            FanOutRun.init (fun h => nomatch h) rfl)
          rfl rfl)
        (fun h => nomatch h) rfl)
      rfl rfl
  have h := batching_invariance (fun n => n) Unit () 0 true
    [(.Account 1, [.StorageSlot 1 2])]
    [(.Account 1, []), (.StorageSlot 1 2, [])] () ()
    (⟨(), (), false, [some (computeMultiproof (targetsOf (fun n => n)
        [.Account 1, .StorageSlot 1 2]))], MultiProof.empty⟩ :
      GatherProofsParallel Unit Unit)
    ⟨(), (), true, [], MultiProof.empty⟩
    (⟨(), (), false, [some (computeMultiproof (targetsOf (fun n => n)
        [.StorageSlot 1 2]))],
      MultiProof.empty.extend (computeMultiproof (targetsOf (fun n => n)
        [.Account 1]))⟩ : GatherProofsParallel Unit Unit)
    ⟨(), (), true, [], MultiProof.empty⟩
    [computeMultiproof (targetsOf (fun n => n)
      [.Account 1, .StorageSlot 1 2])]
    [computeMultiproof (targetsOf (fun n => n) [.StorageSlot 1 2])]
    [.Account 1, .StorageSlot 1 2] [] [.Account 1, .StorageSlot 1 2] []
    true true
    (MultiProof.empty.extend (computeMultiproof (targetsOf (fun n => n)
      [.Account 1, .StorageSlot 1 2])))
    ((MultiProof.empty.extend (computeMultiproof (targetsOf (fun n => n)
      [.Account 1]))).extend (computeMultiproof (targetsOf (fun n => n)
      [.StorageSlot 1 2])))
    [] []
    rfl hrunA (fun _ => rfl) rfl hrunB (fun _ => rfl) rfl rfl
  exact ⟨h.1, h.2.2⟩
